import Mathlib

/-!
# Verification of the karoo Stratum V1 proxy core

Shallow embedding of the karoo proxy (Go) protocol core and proofs about it.

Modelling conventions:
* Go strings that carry wire data (worker names, hex extranonces) are
  modelled as their byte sequences, `List Nat`, so that Go's `len`,
  byte slicing (`s[n:]`) and `strings.HasPrefix` are `List.length`,
  `List.drop` and `List.isPrefixOf` on the nose.  All data reaching the
  modelled functions is ASCII.
* Go `int` values that may go negative in intermediate arithmetic
  (extranonce sizes, trims) are modelled as `Int`.
* Method names are Lean `String` literals (they are only compared for
  equality).
-/

namespace Karoo

/-- Byte sequence of an ASCII string literal (Go strings are byte slices). -/
def bytes (s : String) : List Nat := s.data.map Char.toNat

/-- `strings.ToUpper` on one ASCII byte: lowercase letters `a`..`z`
(97..122) map to `A`..`Z` (65..90); everything else is unchanged. -/
def goUpperByte (b : Nat) : Nat := if 97 ≤ b ∧ b ≤ 122 then b - 32 else b

/-- `strings.ToUpper` on an ASCII byte string. -/
def goUpper (s : List Nat) : List Nat := s.map goUpperByte

/-- The extranonce2 rewrite inside `Router.processSubmit`
(src/unnamed/part_008, lines 150-171).  `pref` is the client's assigned
extranonce byte prefix (as hex text), `trim` its trim count,
`ex2Size` the upstream extranonce2 byte size, `s` the submitted
`params[2]` string.  Mirrors the Go `switch` on `len(sUp)`. -/
def submitEn2Rewrite (pref : List Nat) (trim ex2Size : Int) (s : List Nat) : List Nat :=
  let sUp := goUpper s
  let expectedLen : Int := (ex2Size - trim) * 2
  if (sUp.length : Int) = expectedLen then
    pref ++ sUp
  else if (sUp.length : Int) = ex2Size * 2 then
    if pref.isPrefixOf sUp then sUp else pref ++ sUp.drop pref.length
  else
    if pref.isPrefixOf sUp then sUp else pref ++ sUp

/-- The extranonce2 rewrite as worded by the specification (§4.6.3), for
the refinement claim: input `sUp` is the already-uppercased submission;
the full-width case overwrites the first `2 × trim` characters. -/
def specEn2Rewrite (pref : List Nat) (trim ex2Size : Int) (sUp : List Nat) : List Nat :=
  if (sUp.length : Int) = (ex2Size - trim) * 2 then
    pref ++ sUp
  else if (sUp.length : Int) = ex2Size * 2 then
    if pref.isPrefixOf sUp then sUp else pref ++ sUp.drop (2 * trim).toNat
  else
    if pref.isPrefixOf sUp then sUp else pref ++ sUp

/-- JSON values as Go `encoding/json` decodes them into dynamic values:
strings, numbers, booleans, null and arrays (objects are not needed by
the routed frames modelled here). -/
inductive JVal where
  | str (s : List Nat)
  | num (n : Int)
  | jbool (b : Bool)
  | null
  | arr (elems : List JVal)

mutual
/-- Structural decidable equality for `JVal` (the automatic deriving
handler does not support the nested `List JVal`). -/
def JVal.decEq : (a b : JVal) → Decidable (a = b)
  | .str a, .str b =>
    if h : a = b then isTrue (by rw [h]) else isFalse (fun hh => h (JVal.str.inj hh))
  | .num a, .num b =>
    if h : a = b then isTrue (by rw [h]) else isFalse (fun hh => h (JVal.num.inj hh))
  | .jbool a, .jbool b =>
    if h : a = b then isTrue (by rw [h]) else isFalse (fun hh => h (JVal.jbool.inj hh))
  | .null, .null => isTrue rfl
  | .arr xs, .arr ys =>
    match JVal.decEqList xs ys with
    | isTrue h => isTrue (by rw [h])
    | isFalse h => isFalse (fun hh => h (JVal.arr.inj hh))
  | .str _, .num _ => isFalse (fun h => JVal.noConfusion h)
  | .str _, .jbool _ => isFalse (fun h => JVal.noConfusion h)
  | .str _, .null => isFalse (fun h => JVal.noConfusion h)
  | .str _, .arr _ => isFalse (fun h => JVal.noConfusion h)
  | .num _, .str _ => isFalse (fun h => JVal.noConfusion h)
  | .num _, .jbool _ => isFalse (fun h => JVal.noConfusion h)
  | .num _, .null => isFalse (fun h => JVal.noConfusion h)
  | .num _, .arr _ => isFalse (fun h => JVal.noConfusion h)
  | .jbool _, .str _ => isFalse (fun h => JVal.noConfusion h)
  | .jbool _, .num _ => isFalse (fun h => JVal.noConfusion h)
  | .jbool _, .null => isFalse (fun h => JVal.noConfusion h)
  | .jbool _, .arr _ => isFalse (fun h => JVal.noConfusion h)
  | .null, .str _ => isFalse (fun h => JVal.noConfusion h)
  | .null, .num _ => isFalse (fun h => JVal.noConfusion h)
  | .null, .jbool _ => isFalse (fun h => JVal.noConfusion h)
  | .null, .arr _ => isFalse (fun h => JVal.noConfusion h)
  | .arr _, .str _ => isFalse (fun h => JVal.noConfusion h)
  | .arr _, .num _ => isFalse (fun h => JVal.noConfusion h)
  | .arr _, .jbool _ => isFalse (fun h => JVal.noConfusion h)
  | .arr _, .null => isFalse (fun h => JVal.noConfusion h)

/-- Decidable equality for lists of `JVal`, mutually with `JVal.decEq`. -/
def JVal.decEqList : (xs ys : List JVal) → Decidable (xs = ys)
  | [], [] => isTrue rfl
  | [], _ :: _ => isFalse (fun h => List.noConfusion h)
  | _ :: _, [] => isFalse (fun h => List.noConfusion h)
  | x :: xs, y :: ys =>
    match JVal.decEq x y, JVal.decEqList xs ys with
    | isTrue h1, isTrue h2 => isTrue (by rw [h1, h2])
    | isFalse h1, _ => isFalse (fun hh => h1 (List.cons.inj hh).1)
    | _, isFalse h2 => isFalse (fun hh => h2 (List.cons.inj hh).2)
end

instance : DecidableEq JVal := JVal.decEq

/-- The per-client routing state touched by the router and nonce manager
(proxy.go `Client`): worker name, effective upstream user, assigned
extranonce prefix bytes and trim count. -/
structure RClient where
  worker : List Nat
  upUser : List Nat
  enPref : List Nat
  enTrim : Int
deriving DecidableEq

/-- `NewClient` (proxy.go lines 228-236): the upstream user is
initialised to the configured `Upstream.User`; everything else empty. -/
def NewClient (cfgUser : List Nat) : RClient :=
  { worker := [], upUser := cfgUser, enPref := [], enTrim := 0 }

/-- `Router.processSubmit` (src/unnamed/part_008, lines 142-175) without
the forwarding call: rewrite `params[0]` to the upstream user and
`params[2]` by the extranonce rule when the params are a non-empty
array; non-array params pass through untouched.  Returns the updated
client and the params value handed to `ForwardToUpstream`. -/
def processSubmit (cfgUser : List Nat) (ex2Size : Int) (cl : RClient) (params : JVal) :
    RClient × JVal :=
  match params with
  | JVal.arr arr =>
    if arr.length > 0 then
      let cl1 := if cl.upUser = [] then { cl with upUser := cfgUser } else cl
      let arr1 := arr.set 0 (JVal.str cl1.upUser)
      let arr2 :=
        if arr1.length > 2 ∧ cl1.enPref ≠ [] ∧ cl1.enTrim > 0 then
          match arr1.get? 2 with
          | some (JVal.str s) =>
              arr1.set 2 (JVal.str (submitEn2Rewrite cl1.enPref cl1.enTrim ex2Size s))
          | _ => arr1
        else arr1
      (cl1, JVal.arr arr2)
    else (cl, JVal.arr arr)
  | p => (cl, p)

/-- A frame forwarded to the upstream pool. -/
structure Forwarded where
  method : String
  params : JVal
  id : Option Int
deriving DecidableEq

/-- Client-session events: a Stratum message read from the miner socket,
or the nonce manager writing the client's prefix and trim (the only
other writers of the routing state). -/
inductive CEvent where
  | msg (method : String) (params : JVal) (id : Option Int)
  | setEnPref (p : List Nat) (t : Int)

/-- One client event through the `ClientLoop` dispatch (proxy.go lines
475-483) and `Router.ProcessClientMessage` (src/unnamed/part_008, lines
116-139): subscribe goes to the nonce manager (nothing forwarded),
authorize captures the worker name and is forwarded unchanged, submit is
rewritten by `processSubmit`, any other `mining.*` method passes through
verbatim, and all other methods are silently ignored. -/
def ProcessClientMessage (cfgUser : List Nat) (ex2Size : Int) (cl : RClient) :
    CEvent → RClient × List Forwarded
  | CEvent.msg m params id =>
    if m = "mining.subscribe" then (cl, [])
    else if m = "mining.authorize" then
      let cl1 :=
        match params with
        | JVal.arr (JVal.str s :: _) => { cl with worker := s }
        | _ => cl
      (cl1, [⟨"mining.authorize", params, id⟩])
    else if m = "mining.submit" then
      let res := processSubmit cfgUser ex2Size cl params
      (res.1, [⟨"mining.submit", res.2, id⟩])
    else if "mining.".data.isPrefixOf m.data then (cl, [⟨m, params, id⟩])
    else (cl, [])
  | CEvent.setEnPref p t => ({ cl with enPref := p, enTrim := t }, [])

/-- Run a client session over a list of events, collecting every frame
forwarded upstream. -/
def runClient (cfgUser : List Nat) (ex2Size : Int) :
    RClient → List CEvent → RClient × List Forwarded
  | cl, [] => (cl, [])
  | cl, e :: es =>
    let r1 := ProcessClientMessage cfgUser ex2Size cl e
    let r2 := runClient cfgUser ex2Size r1.1 es
    (r2.1, r1.2 ++ r2.2)

/-- The build-time prefix width constant `extraNoncePrefixBytes`
(src/unnamed/part_002, line 132). -/
def extraNoncePrefixBytes : Int := 1

/-- One uppercase hex digit as an ASCII byte: 0-9 map to `0`..`9`
(48..57), 10-15 to `A`..`F` (65..70). -/
def hexDigitByte (n : Nat) : Nat := if n < 10 then 48 + n else 55 + n

/-- Fuelled big-endian hex rendering (the fuel only bounds recursion
depth; `hexDigits` supplies enough for any input). -/
def hexDigitsCore : Nat → Nat → List Nat → List Nat
  | 0, _, ds => ds
  | fuel + 1, n, ds =>
    if n < 16 then hexDigitByte n :: ds
    else hexDigitsCore fuel (n / 16) (hexDigitByte (n % 16) :: ds)

/-- Big-endian uppercase hex digits of `n`, at least one digit, as the
`fmt` verb `X` renders a `uint64`. -/
def hexDigits (n : Nat) : List Nat := hexDigitsCore (n + 1) n []

/-- `fmt.Sprintf` of verb `%0*X` with the given width: uppercase hex,
left-padded with `0` bytes to at least `width` digits. -/
def goHexPad (width n : Nat) : List Nat :=
  List.replicate (width - (hexDigits n).length) 48 ++ hexDigits n

/-- `Manager.AssignNoncePrefix` (src/unnamed/part_002, lines 128-152):
skip when the client already holds a prefix or the upstream extranonce2
is too small, otherwise allocate from the process-wide `prefixCounter`
(an `atomic.Uint64`, so arithmetic is mod `2^64`; `Add(1)` returns the
incremented value) and store the masked value as zero-padded uppercase
hex together with the trim count. -/
def AssignNoncePfx (ex2Size : Int) (counter : Nat) (cl : RClient) : Nat × RClient :=
  if cl.enPref ≠ [] then (counter, cl)
  else if extraNoncePrefixBytes ≤ 0 then (counter, cl)
  else if ex2Size ≤ extraNoncePrefixBytes then (counter, cl)
  else
    let bits : Int := extraNoncePrefixBytes * 8
    if bits ≤ 0 ∨ 64 ≤ bits then (counter, cl)
    else
      let mask : Nat := 2 ^ bits.toNat - 1
      if mask = 0 then (counter, cl)
      else
        let counter1 := (counter + 1) % 2 ^ 64
        let val := counter1 % 2 ^ bits.toNat
        (counter1,
          { cl with enPref := goHexPad (2 * extraNoncePrefixBytes).toNat val,
                    enTrim := extraNoncePrefixBytes })

/-- `Manager.GetClientExtranonce` (src/unnamed/part_002, lines 155-170):
compute the effective pair for the client; when the upstream
extranonce2 size no longer exceeds the client's trim, the client's
prefix and trim are cleared. -/
def GetClientExtranonce (ex1 : List Nat) (ex2Size : Int) (cl : RClient) :
    RClient × (List Nat × Int) :=
  if cl.enPref ≠ [] ∧ cl.enTrim > 0 then
    if ex2Size > cl.enTrim then
      (cl, (ex1 ++ cl.enPref, ex2Size - cl.enTrim))
    else
      ({ cl with enPref := [], enTrim := 0 }, (ex1, ex2Size))
  else (cl, (ex1, ex2Size))

/-- A Stratum message as `stratum.Message` (stratum.go lines 13-20):
pointer/interface fields that Go leaves nil are `none`. -/
structure SMessage where
  id : Option Int
  method : String
  params : Option JVal
  result : Option JVal
  error : Option JVal
deriving DecidableEq

/-- `stratum.NewSuccessResponse` (stratum.go lines 220-226). -/
def NewSuccessResponse (id : Option Int) (result : JVal) : SMessage :=
  { id := id, method := "", params := none, result := some result, error := none }

/-- `Manager.RespondSubscribeIfReady` (src/unnamed/part_002, lines
118-125): assign a prefix if needed, compute the client's effective
extranonce pair, and reply `[[], ex1Resp, ex2Resp]` with the stored id.
Returns the new counter, the updated client, and the response written
to the client. -/
def RespondSubscribeIfReady (ex1 : List Nat) (ex2Size : Int) (counter : Nat)
    (cl : RClient) (id : Option Int) : Nat × RClient × SMessage :=
  let a := AssignNoncePfx ex2Size counter cl
  let g := GetClientExtranonce ex1 ex2Size a.2
  (a.1, g.1,
    NewSuccessResponse id (JVal.arr [JVal.arr [], JVal.str g.2.1, JVal.num g.2.2]))

/-- Events of the allocator trace for the prefix-uniqueness claim: a
fresh client connects, subscribes and is assigned a prefix
(`AssignNoncePrefix`), or the upstream session ends and `Manager.Reset`
(src/unnamed/part_002, lines 213-224) stores 0 into the prefix counter
while connected clients keep their prefixes. -/
inductive MEvent where
  | connectAssign
  | reset
deriving DecidableEq

/-- Allocator state: the process-wide counter and the prefixes held by
the connected clients (most recent first). -/
structure MState where
  counter : Nat
  held : List (List Nat)
deriving DecidableEq

/-- One allocator event. -/
def MStep (ex2Size : Int) (s : MState) : MEvent → MState
  | MEvent.connectAssign =>
    let r := AssignNoncePfx ex2Size s.counter
      { worker := [], upUser := [], enPref := [], enTrim := 0 }
    { counter := r.1, held := r.2.enPref :: s.held }
  | MEvent.reset => { counter := 0, held := s.held }

/-- Run the allocator from a state over a list of events. -/
def MRun (ex2Size : Int) : MState → List MEvent → MState
  | s, [] => s
  | s, e :: es => MRun ex2Size (MStep ex2Size s e) es

/-- The allocator's initial state (fresh manager, no clients). -/
def MInit : MState := { counter := 0, held := [] }

/-- Subscribe-queue state of the nonce manager (src/unnamed/part_002):
the `upReady` flag, the upstream extranonce pair it guards, and the
pending-subscribe map, modelled as an association list from client
handles (naturals) to the stored original id.  The `readyCh` channel is
a concurrency signal with no sequential effect and is not modelled. -/
structure QState where
  upReady : Bool
  ex1 : List Nat
  ex2Size : Int
  pendingSubs : List (Nat × Option Int)
deriving DecidableEq

/-- `Manager.UpstreamReady` (src/unnamed/part_002, lines 49-52). -/
def UpstreamReadyQ (s : QState) : Bool :=
  s.upReady && decide (s.ex2Size > 0) && decide (s.ex1 ≠ [])

/-- A Go map store `m.pendingSubs[cl] = id`: overwrite the entry when
the key is present, otherwise add one. -/
def subStore (cl : Nat) (id : Option Int) :
    List (Nat × Option Int) → List (Nat × Option Int)
  | [] => [(cl, id)]
  | (c, i) :: rest =>
    if c = cl then (cl, id) :: rest else (c, i) :: subStore cl id rest

/-- `Manager.EnqueuePendingSubscribe` (src/unnamed/part_002, lines
55-79), sequentially: the pre-lock check and the locked double-check of
readiness collapse into one test.  Returns the new state together with
the `(client, id)` subscribe responses emitted (the body of a response
is `RespondSubscribeIfReady`; claim C9 tracks who is answered with
which id). -/
def EnqueuePendingSubscribe (s : QState) (cl : Nat) (id : Option Int) :
    QState × List (Nat × Option Int) :=
  if UpstreamReadyQ s then (s, [(cl, id)])
  else ({ s with pendingSubs := subStore cl id s.pendingSubs }, [])

/-- `Manager.RemovePendingSubscribe` (src/unnamed/part_002, lines
82-86), called on client disconnect. -/
def RemovePendingSubscribe (s : QState) (cl : Nat) : QState :=
  { s with pendingSubs := s.pendingSubs.filter (fun e => e.1 != cl) }

/-- `Manager.RespondSubscribe` (src/unnamed/part_002, lines 110-116). -/
def RespondSubscribeQ (s : QState) (cl : Nat) (id : Option Int) :
    QState × List (Nat × Option Int) :=
  if !UpstreamReadyQ s then EnqueuePendingSubscribe s cl id
  else (s, [(cl, id)])

/-- `Manager.FlushPendingSubscribes` (src/unnamed/part_002, lines
89-106): drain the map, then respond to every drained entry (Go
iterates the copied map; the association list fixes one order). -/
def FlushPendingSubscribes (s : QState) : QState × List (Nat × Option Int) :=
  let pend := s.pendingSubs
  let s1 : QState := { s with pendingSubs := [] }
  pend.foldl (fun acc e =>
    let r := RespondSubscribeQ acc.1 e.1 e.2
    (r.1, acc.2 ++ r.2)) (s1, [])

/-- `Manager.SetUpstreamReady` (src/unnamed/part_002, lines 173-184):
a false-to-true transition flushes the queue; setting false just clears
the flag. -/
def SetUpstreamReady (s : QState) (ready : Bool) :
    QState × List (Nat × Option Int) :=
  if ready && !s.upReady then
    FlushPendingSubscribes { s with upReady := true }
  else if !ready then
    ({ s with upReady := false }, [])
  else (s, [])

/-- `connection.PendingReq` (connection.go lines 62-68): the
originating client as a handle (`none` models a nil interface), the
upstream method, and the original downstream id; the send timestamp
only feeds the latency log and is not modelled. -/
structure PendingReq where
  client : Option Nat
  method : String
  origID : Option Int
deriving DecidableEq

/-- Two's-complement wraparound of a Go `int64`. -/
def wrap64 (z : Int) : Int := (z + 2 ^ 63) % 2 ^ 64 - 2 ^ 63

/-- The `connection.Upstream` state relevant to id allocation
(connection.go lines 42-60): the request id counter `reqID` (a Go
`int64`), the connected flag and the pending table. -/
structure UpState where
  reqID : Int
  connected : Bool
  pending : List (Int × PendingReq)
deriving DecidableEq

/-- `Upstream.Dial` on success (connection.go lines 97-119): the socket
is replaced and the pending table is reset to a fresh map; the request
id counter is not touched. -/
def UpDial (s : UpState) : UpState :=
  { s with connected := true, pending := [] }

/-- `Upstream.Send` (connection.go lines 153-160): increment the id
counter, stamp the outgoing message with it, and return the id used. -/
def UpSend (s : UpState) : UpState × Int :=
  let i := wrap64 (s.reqID + 1)
  ({ s with reqID := i }, i)

/-- Events of the upstream id-counter trace: a successful dial or one
`Send`. -/
inductive UEvent where
  | dial
  | send
deriving DecidableEq

/-- Run the upstream over dial/send events, recording the id each send
used (`none` marks a dial). -/
def UpRun : UpState → List UEvent → UpState × List (Option Int)
  | s, [] => (s, [])
  | s, UEvent.dial :: es =>
    let r := UpRun (UpDial s) es
    (r.1, none :: r.2)
  | s, UEvent.send :: es =>
    let r := UpSend s
    let r2 := UpRun r.1 es
    (r2.1, some r.2 :: r2.2)

/-- A freshly constructed `Upstream` (connection.go `NewUpstream`). -/
def UpInit : UpState := { reqID := 0, connected := false, pending := [] }

/-- `Upstream.RemovePendingRequest` (connection.go lines 190-198):
take-and-remove on the pending table (Go map; keys are unique). -/
def RemovePendingRequest (pending : List (Int × PendingReq)) (i : Int) :
    List (Int × PendingReq) × Option PendingReq :=
  match pending.lookup i with
  | some req => (pending.filter (fun x => x.1 != i), some req)
  | none => (pending, none)

/-- `Router.processUpstreamResponse` (src/unnamed/part_008, lines
248-269): take the pending entry for the response id; when no entry
matches or its client is nil, drop the frame; otherwise substitute the
stored original id (clearing it when the original request had none) and
write the body back to the originating client.  Share accounting and
the handshake flag are out of scope here.  `i` is the dereferenced
`*msg.ID`. -/
def processUpstreamResponse (pending : List (Int × PendingReq)) (msg : SMessage)
    (i : Int) : List (Int × PendingReq) × Option (Nat × SMessage) :=
  let r := RemovePendingRequest pending i
  match r.2 with
  | none => (r.1, none)
  | some req =>
    match req.client with
    | none => (r.1, none)
    | some clId => (r.1, some (clId, { msg with id := req.origID }))

/-- `Router.ProcessUpstreamMessage` (src/unnamed/part_008, lines
178-193) on an already-parsed frame: a non-empty method is a
notification (broadcast path; the table is untouched); otherwise the
frame is treated as a response only when both an id and a non-nil
result are present — a JSON `result: null` unmarshals to a nil
interface, i.e. `none`.  Returns the new table and the (client,
message) written downstream, if any. -/
def ProcessUpstreamMessage (pending : List (Int × PendingReq)) (msg : SMessage) :
    List (Int × PendingReq) × Option (Nat × SMessage) :=
  if msg.method ≠ "" then (pending, none)
  else
    match msg.result, msg.id with
    | some _, some i => processUpstreamResponse pending msg i
    | _, _ => (pending, none)

/-! ## Supporting lemmas -/

theorem goUpper_length (s : List Nat) : (goUpper s).length = s.length :=
  List.length_map s goUpperByte

theorem goUpperByte_idem (b : Nat) : goUpperByte (goUpperByte b) = goUpperByte b := by
  unfold goUpperByte
  split_ifs <;> omega

theorem goUpper_idem (s : List Nat) : goUpper (goUpper s) = goUpper s := by
  induction s with
  | nil => rfl
  | cons b t ih =>
    simp only [goUpper, List.map_cons, List.map_map] at *
    exact List.cons_eq_cons.mpr ⟨goUpperByte_idem b, ih⟩

theorem goUpper_append (a b : List Nat) :
    goUpper (a ++ b) = goUpper a ++ goUpper b :=
  List.map_append goUpperByte a b

theorem isPrefixOf_append (l t : List Nat) : l.isPrefixOf (l ++ t) = true :=
  List.isPrefixOf_iff_prefix.mpr (List.prefix_append l t)

/-! ## Claim theorems: extranonce2 rewrite (C2, C3, C10) -/

/-- C3: for a client with assigned byte prefix of length `2 × trim`, the
submit rewrite follows exactly the specification's three-case rule on the
uppercased submission: sized-down submissions get the prefix prepended,
full-width submissions get their first `2 × trim` characters overwritten
with the prefix unless they already start with it, and any other length
gets the prefix prepended unless it already starts with it. -/
theorem C3_rewrite_three_cases (pref : List Nat) (trim ex2Size : Int) (s : List Nat)
    (hlen : (pref.length : Int) = 2 * trim) :
    submitEn2Rewrite pref trim ex2Size s = specEn2Rewrite pref trim ex2Size (goUpper s) := by
  have h : pref.length = (2 * trim).toNat := by omega
  simp only [submitEn2Rewrite, specEn2Rewrite, h]

/-- Witness for C3 at a concrete input. -/
theorem C3_rewrite_three_cases_witness :
    submitEn2Rewrite (bytes "01") 1 4 (bytes "a1b2c3")
      = specEn2Rewrite (bytes "01") 1 4 (goUpper (bytes "a1b2c3")) :=
  C3_rewrite_three_cases (bytes "01") 1 4 (bytes "a1b2c3") (by decide)

/-- C2 as stated is false: a submission of unexpected length (here 2 hex
characters, with `ex2Size = 4` and `trim = 1`, so neither the sized-down
width 6 nor the full width 8) is forwarded with the prefix prepended,
giving length 4, not `2 × ex2Size = 8`. -/
theorem C2_counterexample :
    ¬ ((submitEn2Rewrite (bytes "01") 1 4 (bytes "AB")).length = 2 * 4) := by decide

/-- C2 (amended): for a client with assigned prefix of byte length
`2 × trim` and `trim ≤ ex2Size`, the forwarded `params[2]` always begins
with the client's prefix, and whenever the submission has the advertised
sized-down width or the full width, the forwarded value has length
exactly `2 × ex2Size`. -/
theorem C2_amended (pref : List Nat) (trim ex2Size : Int) (s : List Nat)
    (hts : trim ≤ ex2Size) (hlen : (pref.length : Int) = 2 * trim) :
    pref <+: submitEn2Rewrite pref trim ex2Size s ∧
    (((s.length : Int) = (ex2Size - trim) * 2 ∨ (s.length : Int) = ex2Size * 2) →
      ((submitEn2Rewrite pref trim ex2Size s).length : Int) = ex2Size * 2) := by
  have hul : (goUpper s).length = s.length := goUpper_length s
  simp only [submitEn2Rewrite]
  split_ifs with h1 h2 h3 h4
  · refine ⟨List.prefix_append _ _, fun _ => ?_⟩
    simp only [List.length_append]
    omega
  · refine ⟨List.isPrefixOf_iff_prefix.mp h3, fun _ => ?_⟩
    omega
  · refine ⟨List.prefix_append _ _, fun _ => ?_⟩
    have hle : pref.length ≤ (goUpper s).length := by omega
    simp only [List.length_append, List.length_drop]
    omega
  · exact ⟨List.isPrefixOf_iff_prefix.mp h4, fun hd => by omega⟩
  · exact ⟨List.prefix_append _ _, fun hd => by omega⟩

/-- Witness for C2 (amended) at a concrete input. -/
theorem C2_amended_witness :
    bytes "01" <+: submitEn2Rewrite (bytes "01") 1 4 (bytes "a1b2c3") ∧
    ((((bytes "a1b2c3").length : Int) = (4 - 1) * 2 ∨
        ((bytes "a1b2c3").length : Int) = 4 * 2) →
      ((submitEn2Rewrite (bytes "01") 1 4 (bytes "a1b2c3")).length : Int) = 4 * 2) :=
  C2_amended (bytes "01") 1 4 (bytes "a1b2c3") (by decide) (by decide)

/-- C10: for a submission of the advertised sized-down width, the submit
rewrite is idempotent: the first application yields a full-width string
beginning with the (uppercase) prefix, which the second application
leaves unchanged. -/
theorem C10_rewrite_idempotent (pref : List Nat) (trim ex2Size : Int) (s : List Nat)
    (htrim : 0 < trim) (hlen : (pref.length : Int) = 2 * trim)
    (hup : goUpper pref = pref)
    (hs : (s.length : Int) = (ex2Size - trim) * 2) :
    submitEn2Rewrite pref trim ex2Size (submitEn2Rewrite pref trim ex2Size s)
      = submitEn2Rewrite pref trim ex2Size s := by
  have h1 : submitEn2Rewrite pref trim ex2Size s = pref ++ goUpper s := by
    unfold submitEn2Rewrite
    have hc : ((goUpper s).length : Int) = (ex2Size - trim) * 2 := by
      rw [goUpper_length]; exact hs
    simp only [hc, if_pos]
  rw [h1]
  have hfix : goUpper (pref ++ goUpper s) = pref ++ goUpper s := by
    rw [goUpper_append, hup, goUpper_idem]
  have hlen2 : ((pref ++ goUpper s).length : Int) = ex2Size * 2 := by
    simp only [List.length_append, goUpper_length]
    push_cast
    omega
  have hc1 : ¬ (((pref ++ goUpper s).length : Int) = (ex2Size - trim) * 2) := by omega
  unfold submitEn2Rewrite
  simp only [hfix, hc1, hlen2, isPrefixOf_append, if_false, if_true]
  rw [if_neg (show ¬ (ex2Size * 2 = (ex2Size - trim) * 2) by omega)]

theorem hexDigits_one_digit (n : Nat) (h : n < 16) :
    hexDigits n = [hexDigitByte n] := by
  unfold hexDigits
  simp only [hexDigitsCore]
  rw [if_pos h]

theorem hexDigits_two_digits (n : Nat) (h16 : 16 ≤ n) (h : n < 256) :
    hexDigits n = [hexDigitByte (n / 16), hexDigitByte (n % 16)] := by
  obtain ⟨m, rfl⟩ : ∃ m, n = m + 1 := ⟨n - 1, by omega⟩
  unfold hexDigits
  simp only [hexDigitsCore]
  rw [if_neg (by omega), if_pos (by omega)]

theorem goHexPad_two (n : Nat) (h : n < 256) :
    goHexPad 2 n = [hexDigitByte (n / 16), hexDigitByte (n % 16)] := by
  by_cases h16 : n < 16
  · unfold goHexPad
    rw [hexDigits_one_digit n h16]
    have hdiv : n / 16 = 0 := by omega
    have hmod : n % 16 = n := by omega
    simp [hdiv, hmod, hexDigitByte, List.replicate]
  · unfold goHexPad
    rw [hexDigits_two_digits n (by omega) h]
    simp

theorem hexDigitByte_inj (a b : Nat) (ha : a < 16) (hb : b < 16)
    (h : hexDigitByte a = hexDigitByte b) : a = b := by
  unfold hexDigitByte at h
  split_ifs at h <;> omega

theorem goHexPad_two_inj (a b : Nat) (ha : a < 256) (hb : b < 256)
    (h : goHexPad 2 a = goHexPad 2 b) : a = b := by
  rw [goHexPad_two a ha, goHexPad_two b hb] at h
  simp only [List.cons.injEq, and_true] at h
  obtain ⟨h1, h2⟩ := h
  have e1 := hexDigitByte_inj _ _ (by omega) (by omega) h1
  have e2 := hexDigitByte_inj _ _ (by omega) (by omega) h2
  omega

theorem assignNonce_fresh (ex2Size : Int) (hex2 : extraNoncePrefixBytes < ex2Size)
    (c : Nat) (hc : c + 1 < 2 ^ 64) (cl : RClient) (hcl : cl.enPref = []) :
    AssignNoncePfx ex2Size c cl
      = (c + 1, { cl with enPref := goHexPad 2 ((c + 1) % 256), enTrim := 1 }) := by
  unfold AssignNoncePfx
  rw [if_neg (fun hh => hh hcl)]
  rw [if_neg (by unfold extraNoncePrefixBytes; norm_num)]
  rw [if_neg (by unfold extraNoncePrefixBytes at hex2 ⊢; omega)]
  simp only [extraNoncePrefixBytes]
  norm_num
  rw [if_neg (by decide)]
  have h64 : (c + 1) % 18446744073709551616 = c + 1 := Nat.mod_eq_of_lt (by omega)
  have ht2 : Int.toNat 2 = 2 := rfl
  have ht8 : Int.toNat 8 = 8 := rfl
  norm_num [h64, ht2, ht8]

theorem MRun_assigns (ex2Size : Int) (hex2 : extraNoncePrefixBytes < ex2Size) :
    ∀ (evs : List MEvent), (∀ e ∈ evs, e = MEvent.connectAssign) →
    ∀ (c : Nat) (ps : List (List Nat)), c + evs.length ≤ 256 →
      MRun ex2Size { counter := c, held := ps } evs
        = { counter := c + evs.length,
            held := (List.range evs.length).map
                (fun i => goHexPad 2 ((c + evs.length - i) % 256)) ++ ps } := by
  intro evs
  induction evs with
  | nil => intro _ c ps _; simp [MRun]
  | cons e es ih =>
    intro hall c ps hle
    have he : e = MEvent.connectAssign := hall e (by simp)
    subst he
    simp only [MRun, MStep, List.length_cons] at *
    rw [assignNonce_fresh ex2Size hex2 c (by omega) _ rfl]
    rw [ih (fun e hm => hall e (List.mem_cons_of_mem _ hm)) (c + 1) _ (by omega)]
    have hcnt : c + 1 + es.length = c + (es.length + 1) := by omega
    rw [hcnt, List.range_succ, List.map_append]
    simp only [List.map_cons, List.map_nil, List.append_assoc, List.singleton_append]
    have hlast : c + (es.length + 1) - es.length = c + 1 := by omega
    simp [hlast]

/-! ## Claim C1: the submit rewrite of params[0] -/

theorem processSubmit_upUser (cfgUser : List Nat) (ex2Size : Int) (cl : RClient)
    (p : JVal) (h : cl.upUser = cfgUser) :
    (processSubmit cfgUser ex2Size cl p).1.upUser = cfgUser := by
  unfold processSubmit
  cases p <;> simp only
  case arr arr =>
    split_ifs with h1 h2 <;> simp [h]
  all_goals exact h

theorem processSubmit_head (cfgUser : List Nat) (ex2Size : Int) (cl : RClient)
    (a : JVal) (t : List JVal) (h : cl.upUser = cfgUser) :
    ∃ arr2, (processSubmit cfgUser ex2Size cl (JVal.arr (a :: t))).2 = JVal.arr arr2 ∧
      arr2.get? 0 = some (JVal.str cfgUser) := by
  simp only [processSubmit]
  rw [if_pos (by simp)]
  set cl1 := if cl.upUser = [] then { cl with upUser := cfgUser } else cl with hcl1
  have hu1 : cl1.upUser = cfgUser := by rw [hcl1]; split_ifs <;> simp [h]
  refine ⟨_, rfl, ?_⟩
  split_ifs with hc
  · split <;> simp [List.set, hu1]
  · simp [List.set, hu1]

theorem processClientMessage_upUser (cfgUser : List Nat) (ex2Size : Int)
    (cl : RClient) (e : CEvent) (h : cl.upUser = cfgUser) :
    (ProcessClientMessage cfgUser ex2Size cl e).1.upUser = cfgUser := by
  cases e with
  | msg m params id =>
    simp only [ProcessClientMessage]
    split_ifs with h1 h2 h3 h4
    · exact h
    · split <;> exact h
    · exact processSubmit_upUser cfgUser ex2Size cl params h
    · exact h
    · exact h
  | setEnPref p t => exact h

theorem processClientMessage_submit_head (cfgUser : List Nat) (ex2Size : Int)
    (cl : RClient) (e : CEvent) (h : cl.upUser = cfgUser) :
    ∀ f ∈ (ProcessClientMessage cfgUser ex2Size cl e).2, f.method = "mining.submit" →
      ∀ arr, f.params = JVal.arr arr → arr ≠ [] →
        arr.get? 0 = some (JVal.str cfgUser) := by
  cases e with
  | msg m params id =>
    simp only [ProcessClientMessage]
    split_ifs with h1 h2 h3 h4
    · intro f hf; simp at hf
    · intro f hf hm
      simp only [List.mem_singleton] at hf
      subst hf
      simp at hm
    · intro f hf hm arr hp hne
      simp only [List.mem_singleton] at hf
      subst hf
      match params with
      | JVal.arr [] => simp [processSubmit] at hp; subst hp; exact absurd rfl hne
      | JVal.arr (a :: t) =>
        obtain ⟨arr2, harr2, hhead⟩ := processSubmit_head cfgUser ex2Size cl a t h
        simp only at hp
        rw [harr2] at hp
        cases hp
        exact hhead
      | JVal.str s => simp [processSubmit] at hp
      | JVal.num n => simp [processSubmit] at hp
      | JVal.jbool b => simp [processSubmit] at hp
      | JVal.null => simp [processSubmit] at hp
    · intro f hf hm
      simp only [List.mem_singleton] at hf
      subst hf
      simp only at hm
      exact absurd (hm ▸ h3) (fun hc => hc rfl)
    · intro f hf; simp at hf
  | setEnPref p t => intro f hf; simp [ProcessClientMessage] at hf

theorem runClient_submit_head (cfgUser : List Nat) (ex2Size : Int) (evs : List CEvent) :
    ∀ cl : RClient, cl.upUser = cfgUser →
      ∀ f ∈ (runClient cfgUser ex2Size cl evs).2, f.method = "mining.submit" →
        ∀ arr, f.params = JVal.arr arr → arr ≠ [] →
          arr.get? 0 = some (JVal.str cfgUser) := by
  induction evs with
  | nil => intro cl h f hf; simp [runClient] at hf
  | cons e es ih =>
    intro cl h f hf hm arr hp hne
    unfold runClient at hf
    simp only [List.mem_append] at hf
    rcases hf with hf | hf
    · exact processClientMessage_submit_head cfgUser ex2Size cl e h f hf hm arr hp hne
    · exact ih _ (processClientMessage_upUser cfgUser ex2Size cl e h) f hf hm arr hp hne

/-- C1: over any client session (any sequence of miner messages and
prefix assignments, starting from `NewClient`), every `mining.submit`
frame forwarded upstream carries the configured upstream user in
`params[0]`, regardless of the worker name the miner supplied in the
submit or in an earlier `mining.authorize`. -/
theorem C1_submit_forwards_config_user (cfgUser : List Nat) (ex2Size : Int)
    (evs : List CEvent) (f : Forwarded)
    (hf : f ∈ (runClient cfgUser ex2Size (NewClient cfgUser) evs).2)
    (hm : f.method = "mining.submit")
    (arr : List JVal) (hp : f.params = JVal.arr arr) (hne : arr ≠ []) :
    arr.get? 0 = some (JVal.str cfgUser) :=
  runClient_submit_head cfgUser ex2Size evs (NewClient cfgUser) rfl f hf hm arr hp hne

/-- Witness for C1: the S2 scenario.  The miner authorizes as `rig1` and
submits with worker `rig1`; the forwarded frame carries
`wallet.proxy` in `params[0]` and `00A1B2C3` in `params[2]`. -/
theorem C1_submit_forwards_config_user_witness :
    ([JVal.str (bytes "wallet.proxy"), JVal.str (bytes "job1"),
      JVal.str (bytes "00A1B2C3"), JVal.str (bytes "1a2b3c"),
      JVal.str (bytes "deadbeef"), JVal.str (bytes "000000")].get? 0)
      = some (JVal.str (bytes "wallet.proxy")) :=
  C1_submit_forwards_config_user (bytes "wallet.proxy") 4
    [CEvent.setEnPref (bytes "00") 1,
     CEvent.msg "mining.authorize"
       (JVal.arr [JVal.str (bytes "rig1"), JVal.str (bytes "x")]) (some 20),
     CEvent.msg "mining.submit"
       (JVal.arr [JVal.str (bytes "rig1"), JVal.str (bytes "job1"),
         JVal.str (bytes "A1B2C3"), JVal.str (bytes "1a2b3c"),
         JVal.str (bytes "deadbeef"), JVal.str (bytes "000000")]) (some 21)]
    ⟨"mining.submit",
      JVal.arr [JVal.str (bytes "wallet.proxy"), JVal.str (bytes "job1"),
        JVal.str (bytes "00A1B2C3"), JVal.str (bytes "1a2b3c"),
        JVal.str (bytes "deadbeef"), JVal.str (bytes "000000")], some 21⟩
    (by exact List.Mem.tail _ (List.Mem.head _))
    rfl _ rfl (List.cons_ne_nil _ _)

/-- Witness for C10 at a concrete input. -/
theorem C10_rewrite_idempotent_witness :
    submitEn2Rewrite (bytes "01") 1 4 (submitEn2Rewrite (bytes "01") 1 4 (bytes "a1b2c3"))
      = submitEn2Rewrite (bytes "01") 1 4 (bytes "a1b2c3") :=
  C10_rewrite_idempotent (bytes "01") 1 4 (bytes "a1b2c3")
    (by decide) (by decide) (by decide) (by decide)

/-! ## Claim C9: the subscribe queue -/

theorem subStore_filter_eq (cl : Nat) (id : Option Int)
    (l : List (Nat × Option Int))
    (h : (l.filter (fun e => e.1 == cl)).length ≤ 1) :
    (subStore cl id l).filter (fun e => e.1 == cl) = [(cl, id)] := by
  induction l with
  | nil => simp [subStore]
  | cons e rest ih =>
    obtain ⟨c, i⟩ := e
    by_cases hc : c = cl
    · subst hc
      simp only [List.filter_cons, beq_self_eq_true, if_true, List.length_cons] at h
      have hrest : rest.filter (fun e => e.1 == c) = [] := by
        rw [← List.length_eq_zero]
        omega
      simp [subStore, List.filter_cons, hrest]
    · have hbeq : (((c, i) : Nat × Option Int).1 == cl) = false := by simp [hc]
      simp only [List.filter_cons, hbeq, if_false, Bool.false_eq_true] at h
      simp [subStore, hc, List.filter_cons, hbeq, ih h]

theorem filter_remove_empty (cl : Nat) (l : List (Nat × Option Int)) :
    ((l.filter (fun e => e.1 != cl)).filter (fun e => e.1 == cl)) = [] := by
  induction l with
  | nil => rfl
  | cons e rest ih =>
    by_cases h : e.1 = cl <;> simp [List.filter_cons, h, ih]

theorem respondQ_ready (s : QState) (h : UpstreamReadyQ s = true)
    (cl : Nat) (id : Option Int) :
    RespondSubscribeQ s cl id = (s, [(cl, id)]) := by
  simp [RespondSubscribeQ, h]

theorem flush_foldl (pend : List (Nat × Option Int)) :
    ∀ (s : QState) (acc : List (Nat × Option Int)), UpstreamReadyQ s = true →
      pend.foldl (fun acc e =>
          let r := RespondSubscribeQ acc.1 e.1 e.2
          (r.1, acc.2 ++ r.2)) (s, acc) = (s, acc ++ pend) := by
  induction pend with
  | nil => intro s acc _; simp
  | cons e rest ih =>
    intro s acc h
    simp only [List.foldl_cons, respondQ_ready s h e.1 e.2]
    rw [ih s (acc ++ [(e.1, e.2)]) h]
    simp

theorem FlushPendingSubscribes_ready (s : QState) (h : UpstreamReadyQ s = true) :
    FlushPendingSubscribes s = ({ s with pendingSubs := [] }, s.pendingSubs) := by
  unfold FlushPendingSubscribes
  have h1 : UpstreamReadyQ { s with pendingSubs := [] } = true := h
  rw [flush_foldl s.pendingSubs _ [] h1]
  simp

/-- C9: with the upstream not yet ready but its extranonce pair already
valid, two subscribes from the same client are both parked (no response
yet), leave exactly one queue entry for that client holding the latest
id, and on the readiness transition the client is answered exactly once
with that stored id; a client removed before readiness receives no
response. -/
theorem C9_pending_subscribe_latest_wins (s : QState) (cl : Nat)
    (id1 id2 : Option Int)
    (hflag : s.upReady = false) (hex1 : s.ex1 ≠ []) (hex2 : s.ex2Size > 0)
    (hinv : (s.pendingSubs.filter (fun e => e.1 == cl)).length ≤ 1) :
    (EnqueuePendingSubscribe s cl id1).2 = [] ∧
    (EnqueuePendingSubscribe (EnqueuePendingSubscribe s cl id1).1 cl id2).2 = [] ∧
    ((EnqueuePendingSubscribe (EnqueuePendingSubscribe s cl id1).1 cl
        id2).1.pendingSubs.filter (fun e => e.1 == cl)) = [(cl, id2)] ∧
    ((SetUpstreamReady (EnqueuePendingSubscribe
        (EnqueuePendingSubscribe s cl id1).1 cl id2).1 true).2.filter
        (fun e => e.1 == cl)) = [(cl, id2)] ∧
    ((SetUpstreamReady (RemovePendingSubscribe (EnqueuePendingSubscribe
        (EnqueuePendingSubscribe s cl id1).1 cl id2).1 cl) true).2.filter
        (fun e => e.1 == cl)) = [] := by
  have hnr : UpstreamReadyQ s = false := by
    simp [UpstreamReadyQ, hflag]
  have he1 : EnqueuePendingSubscribe s cl id1
      = ({ s with pendingSubs := subStore cl id1 s.pendingSubs }, []) := by
    simp [EnqueuePendingSubscribe, hnr]
  have hnr1 : UpstreamReadyQ { s with pendingSubs := subStore cl id1 s.pendingSubs }
      = false := hnr
  have he2 : EnqueuePendingSubscribe
      ({ s with pendingSubs := subStore cl id1 s.pendingSubs } : QState) cl id2
      = ({ s with pendingSubs := subStore cl id2 (subStore cl id1 s.pendingSubs) },
         []) := by
    simp [EnqueuePendingSubscribe, hnr1]
  have hfil1 : ((subStore cl id1 s.pendingSubs).filter
      (fun e => e.1 == cl)).length ≤ 1 := by
    rw [subStore_filter_eq cl id1 s.pendingSubs hinv]
    simp
  have hfil2 : (subStore cl id2 (subStore cl id1 s.pendingSubs)).filter
      (fun e => e.1 == cl) = [(cl, id2)] :=
    subStore_filter_eq cl id2 _ hfil1
  have hready2 : UpstreamReadyQ
      ({ s with
          upReady := true
          pendingSubs := subStore cl id2 (subStore cl id1 s.pendingSubs) } : QState)
      = true := by
    simp [UpstreamReadyQ, hex1, hex2]
  refine ⟨by rw [he1], ?_, ?_, ?_, ?_⟩
  · rw [he1, he2]
  · rw [he1, he2]
    exact hfil2
  · rw [he1, he2]
    show (SetUpstreamReady
      ({ s with pendingSubs := subStore cl id2 (subStore cl id1 s.pendingSubs) }
        : QState) true).2.filter (fun e => e.1 == cl) = [(cl, id2)]
    unfold SetUpstreamReady
    rw [if_pos (by simp [hflag])]
    rw [FlushPendingSubscribes_ready _ hready2]
    exact hfil2
  · rw [he1, he2]
    show (SetUpstreamReady (RemovePendingSubscribe
      ({ s with pendingSubs := subStore cl id2 (subStore cl id1 s.pendingSubs) }
        : QState) cl) true).2.filter (fun e => e.1 == cl) = []
    unfold SetUpstreamReady RemovePendingSubscribe
    rw [if_pos (by simp [hflag])]
    rw [FlushPendingSubscribes_ready _ (by simp [UpstreamReadyQ, hex1, hex2])]
    exact filter_remove_empty cl _

/-- Witness for C9 at a concrete input. -/
theorem C9_pending_subscribe_latest_wins_witness :
    (EnqueuePendingSubscribe ⟨false, bytes "DEADBEEF", 4, []⟩ 7 (some 5)).2 = [] ∧
    (EnqueuePendingSubscribe (EnqueuePendingSubscribe
        ⟨false, bytes "DEADBEEF", 4, []⟩ 7 (some 5)).1 7 (some 6)).2 = [] ∧
    ((EnqueuePendingSubscribe (EnqueuePendingSubscribe
        ⟨false, bytes "DEADBEEF", 4, []⟩ 7 (some 5)).1 7
        (some 6)).1.pendingSubs.filter (fun e => e.1 == 7)) = [(7, some 6)] ∧
    ((SetUpstreamReady (EnqueuePendingSubscribe (EnqueuePendingSubscribe
        ⟨false, bytes "DEADBEEF", 4, []⟩ 7 (some 5)).1 7 (some 6)).1 true).2.filter
        (fun e => e.1 == 7)) = [(7, some 6)] ∧
    ((SetUpstreamReady (RemovePendingSubscribe (EnqueuePendingSubscribe
        (EnqueuePendingSubscribe ⟨false, bytes "DEADBEEF", 4, []⟩ 7 (some 5)).1 7
        (some 6)).1 7) true).2.filter (fun e => e.1 == 7)) = [] :=
  C9_pending_subscribe_latest_wins ⟨false, bytes "DEADBEEF", 4, []⟩ 7 (some 5) (some 6)
    rfl (by decide) (by decide) (by decide)

/-! ## Claims C4, C7, C8: the extranonce allocator -/

/-- C4 is false as stated: on a fresh allocator with upstream
extranonce1 `DEADBEEF` and extranonce2_size 4, the first subscribe with
id 10 is not answered with result `[[], "DEADBEEF00", 3]` — Go's
`atomic.Uint64.Add(1)` returns the incremented counter, so the first
allocation yields val 1, prefix `01`. -/
theorem C4_counterexample :
    ¬ ((RespondSubscribeIfReady (bytes "DEADBEEF") 4 0
          (NewClient (bytes "wallet.proxy")) (some 10)).2.2
        = NewSuccessResponse (some 10)
            (JVal.arr [JVal.arr [], JVal.str (bytes "DEADBEEF00"), JVal.num 3])) := by
  decide

/-- C4 (amended): on a fresh allocator with upstream extranonce1
`DEADBEEF` and extranonce2_size 4, the first subscribe with id 10 is
answered with result `[[], "DEADBEEF01", 3]` and error null: the first
allocation yields val `(0 + 1) mod 256 = 1`, hence prefix `01` and
trim 1, and the effective pair is extranonce1 concatenated with the
prefix, with the size reduced by the trim. -/
theorem C4_amended_first_alloc :
    RespondSubscribeIfReady (bytes "DEADBEEF") 4 0
        (NewClient (bytes "wallet.proxy")) (some 10)
      = (1, { worker := [], upUser := bytes "wallet.proxy",
              enPref := bytes "01", enTrim := 1 },
         NewSuccessResponse (some 10)
           (JVal.arr [JVal.arr [], JVal.str (bytes "DEADBEEF01"), JVal.num 3])) := by
  decide

/-- C7 is false as stated: after assigning a prefix to a first client,
resetting the manager (upstream session reset stores 0 into the prefix
counter while the client stays connected), and assigning to a second
client, both simultaneously connected clients hold prefix `01` — with
only 2 clients, far below 256. -/
theorem C7_counterexample :
    (MRun 4 MInit [MEvent.connectAssign, MEvent.reset,
        MEvent.connectAssign]).held.length ≤ 256 ∧
    ¬ (MRun 4 MInit [MEvent.connectAssign, MEvent.reset,
        MEvent.connectAssign]).held.Nodup := by
  decide

/-- C7 (amended): within a single upstream session (no `Manager.Reset`
between the allocations) with at most 256 prefixes allocated and
`extranonce2_size > prefix_bytes`, no two simultaneously connected
clients hold the same extranonce prefix. -/
theorem C7_amended_nodup_within_session (ex2Size : Int)
    (hex2 : extraNoncePrefixBytes < ex2Size)
    (evs : List MEvent) (hall : ∀ e ∈ evs, e = MEvent.connectAssign)
    (hlen : evs.length ≤ 256) :
    (MRun ex2Size MInit evs).held.Nodup := by
  have h0 : MInit = { counter := 0, held := [] } := rfl
  rw [h0, MRun_assigns ex2Size hex2 evs hall 0 [] (by omega)]
  simp only [List.append_nil, Nat.zero_add]
  apply List.Nodup.map_on ?_ (List.nodup_range _)
  intro i hi j hj hf
  simp only [List.mem_range] at hi hj
  have e := goHexPad_two_inj _ _ (Nat.mod_lt _ (by omega)) (Nat.mod_lt _ (by omega)) hf
  omega

/-- Witness for C7 (amended): two allocations in one session. -/
theorem C7_amended_nodup_within_session_witness :
    (MRun 4 MInit [MEvent.connectAssign, MEvent.connectAssign]).held.Nodup :=
  C7_amended_nodup_within_session 4 (by decide)
    [MEvent.connectAssign, MEvent.connectAssign] (by decide) (by decide)

/-- C8 is false as stated: a client holding assigned prefix `01` with
trim 1 loses it during a later subscribe response once the upstream
extranonce2_size has dropped to 1 (`GetClientExtranonce` clears the
prefix when the size no longer exceeds the trim), so the prefix is not
immutable under upstream extranonce changes. -/
theorem C8_counterexample :
    (RespondSubscribeIfReady (bytes "AB") 1 5
        { worker := [], upUser := [], enPref := bytes "01", enTrim := 1 }
        (some 3)).2.1.enPref ≠ bytes "01" := by
  decide

/-- C8 (amended): an already-assigned prefix is never overwritten by
`AssignNoncePrefix`, and as long as the upstream extranonce2_size
exceeds the client's trim, subscribe responses and submit processing
leave the client's prefix and trim unchanged; only when the size drops
to at most the trim does the subscribe path clear the prefix (after
which a later subscribe may assign a fresh one). -/
theorem C8_amended_immutable_while_size_ok (ex1 : List Nat) (ex2Size : Int)
    (counter : Nat) (cl : RClient) (id : Option Int)
    (cfgUser : List Nat) (p : JVal)
    (hpref : cl.enPref ≠ []) (htrim : ex2Size > cl.enTrim) :
    AssignNoncePfx ex2Size counter cl = (counter, cl) ∧
    (GetClientExtranonce ex1 ex2Size cl).1 = cl ∧
    (RespondSubscribeIfReady ex1 ex2Size counter cl id).2.1 = cl ∧
    (processSubmit cfgUser ex2Size cl p).1.enPref = cl.enPref ∧
    (processSubmit cfgUser ex2Size cl p).1.enTrim = cl.enTrim := by
  have hA : AssignNoncePfx ex2Size counter cl = (counter, cl) := by
    unfold AssignNoncePfx
    rw [if_pos hpref]
  have hG : (GetClientExtranonce ex1 ex2Size cl).1 = cl := by
    unfold GetClientExtranonce
    split_ifs with h1 <;> rfl
  have hR : (RespondSubscribeIfReady ex1 ex2Size counter cl id).2.1 = cl := by
    unfold RespondSubscribeIfReady
    simp only [hA, hG]
  have hP : (processSubmit cfgUser ex2Size cl p).1.enPref = cl.enPref ∧
      (processSubmit cfgUser ex2Size cl p).1.enTrim = cl.enTrim := by
    cases p
    case arr arr =>
      simp only [processSubmit]
      split_ifs with h1 h2 <;> simp
    all_goals simp [processSubmit]
  exact ⟨hA, hG, hR, hP.1, hP.2⟩

/-- Witness for C8 (amended) at a concrete input. -/
theorem C8_amended_immutable_while_size_ok_witness :
    AssignNoncePfx 4 7 { worker := [], upUser := [], enPref := bytes "01", enTrim := 1 }
        = (7, { worker := [], upUser := [], enPref := bytes "01", enTrim := 1 }) ∧
    (GetClientExtranonce (bytes "DEADBEEF") 4
        { worker := [], upUser := [], enPref := bytes "01", enTrim := 1 }).1
      = { worker := [], upUser := [], enPref := bytes "01", enTrim := 1 } ∧
    (RespondSubscribeIfReady (bytes "DEADBEEF") 4 7
        { worker := [], upUser := [], enPref := bytes "01", enTrim := 1 } (some 10)).2.1
      = { worker := [], upUser := [], enPref := bytes "01", enTrim := 1 } ∧
    (processSubmit (bytes "wallet.proxy") 4
        { worker := [], upUser := [], enPref := bytes "01", enTrim := 1 }
        (JVal.arr [JVal.str (bytes "rig1")])).1.enPref
      = ({ worker := [], upUser := [], enPref := bytes "01", enTrim := 1 } : RClient).enPref ∧
    (processSubmit (bytes "wallet.proxy") 4
        { worker := [], upUser := [], enPref := bytes "01", enTrim := 1 }
        (JVal.arr [JVal.str (bytes "rig1")])).1.enTrim
      = ({ worker := [], upUser := [], enPref := bytes "01", enTrim := 1 } : RClient).enTrim :=
  C8_amended_immutable_while_size_ok (bytes "DEADBEEF") 4 7
    { worker := [], upUser := [], enPref := bytes "01", enTrim := 1 } (some 10)
    (bytes "wallet.proxy") (JVal.arr [JVal.str (bytes "rig1")])
    (by decide) (by decide)

/-! ## Claims C5, C6: upstream id counter and response routing -/

/-- C5 names a code bug: `Upstream.Dial` resets the pending table but
never resets `reqID`, so after a first session whose handshake sent two
requests (subscribe id 1, authorize id 2), the second dial's handshake
subscribe is sent with upstream id 3, not 1 — while the reader in
`UpstreamLoop` (proxy.go line 568) recognises the subscribe result only
at id 1.  The trace below evaluates the code at that failing input. -/
theorem C5_code_bug_no_reset_on_redial :
    (UpRun UpInit [UEvent.dial, UEvent.send, UEvent.send,
        UEvent.dial, UEvent.send]).2
      = [none, some 1, some 2, none, some 3] ∧ (3 : Int) ≠ 1 := by decide

/-- C6 names a code bug: an error-only response (id present, result
null, error tuple set) is dropped without consulting the pending table
— the entry is leaked and nothing reaches the originating client —
whereas the same frame with `result: false` is taken from the table and
relayed with the original id restored.  The repo's own
`stratum.Message.IsResponse` (stratum.go lines 238-241) classifies both
frames as responses. -/
theorem C6_code_bug_error_only_response_dropped :
    ProcessUpstreamMessage [(7, ⟨some 3, "mining.submit", some 42⟩)]
        ⟨some 7, "", none, none,
          some (JVal.arr [JVal.num 23,
            JVal.str (bytes "low difficulty share"), JVal.null])⟩
      = ([(7, ⟨some 3, "mining.submit", some 42⟩)], none) ∧
    ProcessUpstreamMessage [(7, ⟨some 3, "mining.submit", some 42⟩)]
        ⟨some 7, "", none, some (JVal.jbool false),
          some (JVal.arr [JVal.num 23,
            JVal.str (bytes "low difficulty share"), JVal.null])⟩
      = ([], some (3,
          ⟨some 42, "", none, some (JVal.jbool false),
            some (JVal.arr [JVal.num 23,
              JVal.str (bytes "low difficulty share"), JVal.null])⟩)) := by
  decide

end Karoo
